import Mathlib

/-!
Verification of the solana-dao governance ledger.

This file shallowly embeds the core of the repository:
* the Borsh-style binary codec used by the on-chain account structs
  (programs/solana-dao/src/lib.rs) and by the bot-side mirror module
  (bot/src/main.rs, mod solana_dao), together with the bot's
  trailing-zero-stripping length-recovery heuristic;
* the proposal state machine (create_proposal / vote_on_proposal);
* the proposal PDA seed computation with its fixed 8-byte prefixes.

Bytes are modelled as lists of naturals (each value below 256 in any
well-formed buffer), u64/u32/u8 as Nat, i64 as Int with an explicit
two's-complement encoding at the byte level, and fallible operations as
Option/Except.
-/

namespace SolanaDao

/-- Raw byte buffers: lists of naturals. A well-formed buffer holds values
below 256; the codec lemmas that need this state it explicitly. -/
abbrev Bytes := List Nat

/-- A consuming parser over byte buffers: returns the parsed value and the
unconsumed rest, or fails. -/
def Parser (α : Type) : Type := Bytes → Option (α × Bytes)

/-- Sequential composition of parsers. -/
def pbind {α β : Type} (p : Parser α) (f : α → Parser β) : Parser β :=
  fun b =>
    match p b with
    | none => none
    | some (a, rest) => f a rest

/-- Map a function over a parser result. -/
def pmap {α β : Type} (f : α → β) (p : Parser α) : Parser β :=
  fun b =>
    match p b with
    | none => none
    | some (a, rest) => some (f a, rest)

/-- Read exactly `n` raw bytes. -/
def dBytes (n : Nat) : Parser Bytes :=
  fun b => if n ≤ b.length then some (b.take n, b.drop n) else none

/-- Little-endian encoding of `n` into exactly `k` bytes (Borsh integer
layout). -/
def natToBytes : Nat → Nat → Bytes
  | 0, _ => []
  | k + 1, n => (n % 256) :: natToBytes k (n / 256)

/-- Little-endian byte-list to natural number. -/
def bytesToNat (l : Bytes) : Nat :=
  l.foldr (fun b acc => b + 256 * acc) 0

/-- Parse a `k`-byte little-endian unsigned integer. -/
def dUInt (k : Nat) : Parser Nat := pmap bytesToNat (dBytes k)

/-- Encode a `k`-byte little-endian unsigned integer. -/
def encUInt (k n : Nat) : Bytes := natToBytes k n

/-- Borsh u8 parser. -/
def dU8 : Parser Nat := dUInt 1

/-- Borsh u32 parser (length prefixes). -/
def dU32 : Parser Nat := dUInt 4

/-- Borsh u64 parser. -/
def dU64 : Parser Nat := dUInt 8

/-- Borsh i64: 8 little-endian bytes, two's complement. -/
def dI64 : Parser Int :=
  pmap (fun n : Nat => if n < 2 ^ 63 then (n : Int) else (n : Int) - 2 ^ 64) (dUInt 8)

/-- Encode an i64 as 8 little-endian two's-complement bytes. -/
def encI64 (v : Int) : Bytes := natToBytes 8 (v % 2 ^ 64).toNat

/-- Borsh string body: 4-byte length prefix then the raw bytes. -/
def dString : Parser Bytes := pbind dU32 dBytes

/-- Encode a Borsh string: 4-byte length prefix then the raw bytes. -/
def encString (s : Bytes) : Bytes := encUInt 4 s.length ++ s

/-- Parse exactly `n` consecutive elements. -/
def dList {α : Type} (d : Parser α) : Nat → Parser (List α)
  | 0 => fun b => some ([], b)
  | n + 1 =>
    pbind d (fun x => pmap (fun xs => x :: xs) (dList d n))

/-- Borsh `Vec<T>`: 4-byte length prefix then that many elements. -/
def dVec {α : Type} (d : Parser α) : Parser (List α) :=
  pbind dU32 (dList d)

/-- Encode a Borsh `Vec<T>`. -/
def encVec {α : Type} (enc : α → Bytes) (xs : List α) : Bytes :=
  encUInt 4 xs.length ++ xs.flatMap enc

/-- Borsh `Option<T>`: tag byte 0 (None) or 1 (Some), other tags fail. -/
def dOption {α : Type} (d : Parser α) : Parser (Option α) :=
  fun b =>
    match b with
    | 0 :: rest => some (none, rest)
    | 1 :: rest =>
      match d rest with
      | none => none
      | some (x, r) => some (some x, r)
    | _ => none

/-- Encode a Borsh `Option<T>`. -/
def encOption {α : Type} (enc : α → Bytes) : Option α → Bytes
  | none => [0]
  | some x => 1 :: enc x

/-- A Solana public key: 32 raw bytes, no length prefix. -/
def dPubkey : Parser Bytes := dBytes 32

/-- Run a parser requiring it to consume the whole buffer, as
borsh `try_from_slice` does (leftover bytes are an error). -/
def tryFromSlice {α : Type} (d : Parser α) (b : Bytes) : Option α :=
  match d b with
  | some (x, []) => some x
  | _ => none

/-- `PC enc x p` (parse-complete): on input `enc` followed by anything, the
parser `p` returns `x` and the trailing bytes. -/
def PC {α : Type} (enc : Bytes) (x : α) (p : Parser α) : Prop :=
  ∀ rest, p (enc ++ rest) = some (x, rest)

/-- `Mono p`: a successful parse is stable under appending extra input. -/
def Mono {α : Type} (p : Parser α) : Prop :=
  ∀ b x rest ext, p b = some (x, rest) → p (b ++ ext) = some (x, rest ++ ext)

/-! ### Record types (lib.rs account and helper structs) -/

/-- Helper struct `GroupInfo` (registry back-reference entry). -/
structure GroupInfo where
  group_id : Bytes
  authority : Bytes
  pubkey : Bytes
deriving DecidableEq

/-- Helper struct `ProposalInfo` (group back-reference entry). -/
structure ProposalInfo where
  proposal_id : Bytes
  pubkey : Bytes
  created_at : Int
deriving DecidableEq

/-- Helper struct `GroupMember`. -/
structure GroupMember where
  pubkey : Bytes
  joined_at : Int
deriving DecidableEq

/-- Helper struct `VoterInfo` (one recorded vote). -/
structure VoterInfo where
  voter : Bytes
  choice : Nat
  vote_weight : Nat
  timestamp : Int
deriving DecidableEq

/-- Account struct `DaoRegistry`. -/
structure DaoRegistry where
  authority : Bytes
  groups : List GroupInfo
  bump : Nat
deriving DecidableEq

/-- Account struct `Group`. -/
structure Group where
  group_id : Bytes
  name : Bytes
  description : Bytes
  authority : Bytes
  proposals : List ProposalInfo
  members : List GroupMember
  created_at : Int
  bump : Nat
deriving DecidableEq

/-- Account struct `Proposal`. -/
structure Proposal where
  proposal_id : Bytes
  group_id : Bytes
  title : Bytes
  description : Bytes
  choices : List Bytes
  choice_votes : List Nat
  voting_start : Int
  voting_end : Int
  token_mint : Option Bytes
  creator : Bytes
  voters : List VoterInfo
  created_at : Int
  bump : Nat
deriving DecidableEq

/-- Account struct `UserAccount`. -/
structure UserAccount where
  telegram_id : Int
  wallet_pubkey : Bytes
  created_at : Int
  bump : Nat
deriving DecidableEq

/-! ### Borsh encoding of each record kind, fields in declaration order -/

/-- Encode a `GroupInfo`. -/
def encGroupInfo (g : GroupInfo) : Bytes :=
  encString g.group_id ++ (g.authority ++ g.pubkey)

/-- Decode a `GroupInfo`. -/
def dGroupInfo : Parser GroupInfo :=
  pbind dString fun gid =>
  pbind dPubkey fun auth =>
  pmap (fun pk => ⟨gid, auth, pk⟩) dPubkey

/-- Encode a `ProposalInfo`. -/
def encProposalInfo (p : ProposalInfo) : Bytes :=
  encString p.proposal_id ++ (p.pubkey ++ encI64 p.created_at)

/-- Decode a `ProposalInfo`. -/
def dProposalInfo : Parser ProposalInfo :=
  pbind dString fun pid =>
  pbind dPubkey fun pk =>
  pmap (fun ca => ⟨pid, pk, ca⟩) dI64

/-- Encode a `GroupMember`. -/
def encGroupMember (m : GroupMember) : Bytes :=
  m.pubkey ++ encI64 m.joined_at

/-- Decode a `GroupMember`. -/
def dGroupMember : Parser GroupMember :=
  pbind dPubkey fun pk =>
  pmap (fun ja => ⟨pk, ja⟩) dI64

/-- Encode a `VoterInfo`. -/
def encVoterInfo (v : VoterInfo) : Bytes :=
  v.voter ++ (encUInt 1 v.choice ++ (encUInt 8 v.vote_weight ++ encI64 v.timestamp))

/-- Decode a `VoterInfo`. -/
def dVoterInfo : Parser VoterInfo :=
  pbind dPubkey fun vk =>
  pbind dU8 fun ch =>
  pbind dU64 fun w =>
  pmap (fun ts => ⟨vk, ch, w, ts⟩) dI64

/-- Encode a `DaoRegistry` account body (after the 8-byte discriminator). -/
def encDaoRegistry (r : DaoRegistry) : Bytes :=
  r.authority ++ (encVec encGroupInfo r.groups ++ encUInt 1 r.bump)

/-- Decode a `DaoRegistry` account body. -/
def dDaoRegistry : Parser DaoRegistry :=
  pbind dPubkey fun auth =>
  pbind (dVec dGroupInfo) fun gs =>
  pmap (fun bump => ⟨auth, gs, bump⟩) dU8

/-- Encode a `Group` account body. -/
def encGroup (g : Group) : Bytes :=
  encString g.group_id ++ (encString g.name ++ (encString g.description ++
  (g.authority ++ (encVec encProposalInfo g.proposals ++
  (encVec encGroupMember g.members ++ (encI64 g.created_at ++ encUInt 1 g.bump))))))

/-- Decode a `Group` account body. -/
def dGroup : Parser Group :=
  pbind dString fun gid =>
  pbind dString fun name =>
  pbind dString fun desc =>
  pbind dPubkey fun auth =>
  pbind (dVec dProposalInfo) fun ps =>
  pbind (dVec dGroupMember) fun ms =>
  pbind dI64 fun ca =>
  pmap (fun bump => ⟨gid, name, desc, auth, ps, ms, ca, bump⟩) dU8

/-- Encode a `Proposal` account body. -/
def encProposal (p : Proposal) : Bytes :=
  encString p.proposal_id ++ (encString p.group_id ++ (encString p.title ++
  (encString p.description ++ (encVec encString p.choices ++
  (encVec (encUInt 8) p.choice_votes ++ (encI64 p.voting_start ++
  (encI64 p.voting_end ++ (encOption id p.token_mint ++ (p.creator ++
  (encVec encVoterInfo p.voters ++ (encI64 p.created_at ++ encUInt 1 p.bump)))))))))))

/-- Decode a `Proposal` account body. -/
def dProposal : Parser Proposal :=
  pbind dString fun pid =>
  pbind dString fun gid =>
  pbind dString fun title =>
  pbind dString fun desc =>
  pbind (dVec dString) fun choices =>
  pbind (dVec dU64) fun cv =>
  pbind dI64 fun vs =>
  pbind dI64 fun ve =>
  pbind (dOption dPubkey) fun tm =>
  pbind dPubkey fun creator =>
  pbind (dVec dVoterInfo) fun voters =>
  pbind dI64 fun ca =>
  pmap (fun bump => ⟨pid, gid, title, desc, choices, cv, vs, ve, tm, creator, voters, ca, bump⟩) dU8

/-- Encode a `UserAccount` account body. -/
def encUserAccount (u : UserAccount) : Bytes :=
  encI64 u.telegram_id ++ (u.wallet_pubkey ++ (encI64 u.created_at ++ encUInt 1 u.bump))

/-- Decode a `UserAccount` account body. -/
def dUserAccount : Parser UserAccount :=
  pbind dI64 fun tid =>
  pbind dPubkey fun wpk =>
  pbind dI64 fun ca =>
  pmap (fun bump => ⟨tid, wpk, ca, bump⟩) dU8

/-! ### Validity predicates: spec §3 field ceilings plus machine-width bounds -/

/-- A byte string within a length ceiling, every byte below 256. -/
def validStr (cap : Nat) (s : Bytes) : Prop :=
  s.length ≤ cap ∧ ∀ b ∈ s, b < 256

/-- A public key: exactly 32 bytes, each below 256. -/
def validPubkey (k : Bytes) : Prop :=
  k.length = 32 ∧ ∀ b ∈ k, b < 256

/-- An i64 value in two's-complement range. -/
def validI64 (v : Int) : Prop :=
  -(2 ^ 63) ≤ v ∧ v < 2 ^ 63

/-- A valid `GroupInfo`: id ceiling 50, two public keys. -/
def validGroupInfo (g : GroupInfo) : Prop :=
  validStr 50 g.group_id ∧ validPubkey g.authority ∧ validPubkey g.pubkey

/-- A valid `ProposalInfo`. -/
def validProposalInfo (p : ProposalInfo) : Prop :=
  validStr 50 p.proposal_id ∧ validPubkey p.pubkey ∧ validI64 p.created_at

/-- A valid `GroupMember`. -/
def validGroupMember (m : GroupMember) : Prop :=
  validPubkey m.pubkey ∧ validI64 m.joined_at

/-- A valid `VoterInfo`: voter key, u8 choice, u64 weight, i64 timestamp. -/
def validVoterInfo (v : VoterInfo) : Prop :=
  validPubkey v.voter ∧ v.choice < 256 ∧ v.vote_weight < 2 ^ 64 ∧ validI64 v.timestamp

/-- A valid `DaoRegistry` record. -/
def validDaoRegistry (r : DaoRegistry) : Prop :=
  validPubkey r.authority ∧ r.groups.length < 2 ^ 32 ∧
  (∀ g ∈ r.groups, validGroupInfo g) ∧ r.bump < 256

/-- A valid `Group` record (§3 ceilings 50/100/500). -/
def validGroup (g : Group) : Prop :=
  validStr 50 g.group_id ∧ validStr 100 g.name ∧ validStr 500 g.description ∧
  validPubkey g.authority ∧ g.proposals.length < 2 ^ 32 ∧
  (∀ p ∈ g.proposals, validProposalInfo p) ∧ g.members.length < 2 ^ 32 ∧
  (∀ m ∈ g.members, validGroupMember m) ∧ validI64 g.created_at ∧ g.bump < 256

/-- A valid `Proposal` record (§3 ceilings 50/50/200/1000, choice count 2–10,
non-empty choice labels, u64 counters). -/
def validProposal (p : Proposal) : Prop :=
  validStr 50 p.proposal_id ∧ validStr 50 p.group_id ∧ validStr 200 p.title ∧
  validStr 1000 p.description ∧
  2 ≤ p.choices.length ∧ p.choices.length ≤ 10 ∧
  (∀ c ∈ p.choices, c ≠ [] ∧ c.length < 2 ^ 32 ∧ ∀ b ∈ c, b < 256) ∧
  (∀ n ∈ p.choice_votes, n < 2 ^ 64) ∧ p.choice_votes.length < 2 ^ 32 ∧
  validI64 p.voting_start ∧ validI64 p.voting_end ∧
  (∀ m ∈ p.token_mint, validPubkey m) ∧
  validPubkey p.creator ∧ p.voters.length < 2 ^ 32 ∧
  (∀ v ∈ p.voters, validVoterInfo v) ∧ validI64 p.created_at ∧ p.bump < 256

/-- A valid `UserAccount` record. -/
def validUserAccount (u : UserAccount) : Prop :=
  validI64 u.telegram_id ∧ validPubkey u.wallet_pubkey ∧
  validI64 u.created_at ∧ u.bump < 256

attribute [reducible] validStr validPubkey validI64 validGroupInfo
  validProposalInfo validGroupMember validVoterInfo validDaoRegistry
  validGroup validProposal validUserAccount

/-! ### The bot's padding-recovery heuristic (bot/src/main.rs)

After stripping the 8-byte discriminator, the bot scans the buffer from the
end for the last non-zero byte and keeps exactly that prefix; if every byte
is zero the scan finds nothing and the full buffer is kept unchanged. -/

/-- Trailing-zero stripping as implemented by the bot's length-recovery
loop. -/
def stripTrailingZeros (b : Bytes) : Bytes :=
  if b.reverse.dropWhile (· == 0) = [] then b
  else (b.reverse.dropWhile (· == 0)).reverse

/-- Decode a stored account slot the way the bot does: drop the 8-byte
discriminator, strip trailing zero padding, then run the borsh decoder on
exactly that prefix. -/
def decodeStored {α : Type} (d : Parser α) (slot : Bytes) : Option α :=
  tryFromSlice d (stripTrailingZeros (slot.drop 8))

/-! ### Slot capacities fixed at creation (the `space = ...` attributes) -/

/-- `Initialize`: registry slot capacity. -/
def registrySpace : Nat := 8 + 32 + 4 + (20 * (4 + 50 + 32 + 32)) + 1

/-- `CreateGroup`: group slot capacity. -/
def groupSpace : Nat := 8 + 4 + 50 + 4 + 100 + 4 + 500 + 32 + 4 + 4 + 8 + 1

/-- `CreateProposal`: proposal slot capacity. -/
def proposalSpace : Nat :=
  8 + 4 + 50 + 4 + 50 + 4 + 200 + 4 + 1000 + 4 + 4 + 8 + 8 + 33 + 32 + 4 + 8 + 1

/-- `CreateUserAccount`: user account slot capacity. -/
def userAccountSpace : Nat := 8 + 8 + 32 + 8 + 1

/-! ### Error codes (lib.rs `DaoError`) -/

/-- The program's error enum. -/
inductive DaoError where
  | GroupIdTooLong
  | NameTooLong
  | DescriptionTooLong
  | ProposalIdTooLong
  | TitleTooLong
  | InvalidChoiceCount
  | InvalidVotingPeriod
  | VotingStartInPast
  | VotingNotActive
  | InvalidChoice
  | AlreadyVoted
  | TokenAccountRequired
  | InvalidTokenMint
  | NoVotingPower
  | Unauthorized
  | MemberAlreadyExists
  | MemberNotFound
  | InvalidTelegramId
deriving DecidableEq

/-- Equality of handler results is decidable (needed to evaluate the state
machine on concrete inputs). -/
instance {e a : Type} [DecidableEq e] [DecidableEq a] : DecidableEq (Except e a) :=
  fun x y =>
    match x, y with
    | .ok v, .ok w =>
      if h : v = w then isTrue (by rw [h]) else isFalse (by simp [h])
    | .error v, .error w =>
      if h : v = w then isTrue (by rw [h]) else isFalse (by simp [h])
    | .ok _, .error _ => isFalse (by simp)
    | .error _, .ok _ => isFalse (by simp)

/-! ### Proposal state machine -/

/-- The native SOL mint `So11111111111111111111111111111111111111112`
(base58-decoded to its 32 raw bytes), the designated native-balance
marker compared against `token_mint` in `vote_on_proposal`. -/
def nativeMint : Bytes :=
  [6, 155, 136, 87, 254, 171, 129, 132, 251, 104, 127, 99, 70, 24, 192, 53,
   218, 196, 57, 220, 26, 235, 59, 85, 152, 160, 240, 0, 0, 0, 0, 1]

/-- The weight `vote_on_proposal` resolves for a voter, as a function of the
proposal's weighting asset and the voter's lamport balance: no asset
configured means weight 1, the native marker means the balance read at vote
time, any other asset falls back to the placeholder 1. -/
def resolveWeight (token_mint : Option Bytes) (lamports : Nat) : Nat :=
  match token_mint with
  | some m => if m = nativeMint then lamports else 1
  | none => 1

/-- `vote_on_proposal` (lib.rs lines 124–188), with the clock reading, the
voter's key, the voter's lamport balance and the presence of the optional
`voter_token_account` supplied by the execution environment.  Checks run in
source order: voting window, choice bound, double-vote, weight resolution
(including the `TokenAccountRequired` guard on the non-native path), zero
weight; only then is the record mutated. -/
def castVote (p : Proposal) (now : Int) (voterKey : Bytes) (choiceIndex : Nat)
    (voterLamports : Nat) (hasVoterTokenAccount : Bool) : Except DaoError Proposal :=
  if ¬ (p.voting_start ≤ now ∧ now ≤ p.voting_end) then .error .VotingNotActive
  else if ¬ (choiceIndex < p.choices.length) then .error .InvalidChoice
  else if p.voters.any (fun v => v.voter == voterKey) then .error .AlreadyVoted
  else
    let weightRes : Except DaoError Nat :=
      match p.token_mint with
      | some m =>
        if m = nativeMint then .ok voterLamports
        else if hasVoterTokenAccount then .ok 1
        else .error .TokenAccountRequired
      | none => .ok 1
    match weightRes with
    | .error e => .error e
    | .ok w =>
      if ¬ (w > 0) then .error .NoVotingPower
      else .ok { p with
        choice_votes := p.choice_votes.set choiceIndex (p.choice_votes.getD choiceIndex 0 + w),
        voters := p.voters ++ [⟨voterKey, choiceIndex, w, now⟩] }

/-- One `vote_on_proposal` call's inputs. -/
structure VoteCall where
  now : Int
  voter : Bytes
  choiceIndex : Nat
  lamports : Nat
  hasTokenAccount : Bool

/-- The stored record after one `vote_on_proposal` call: the new record on
success, the untouched old record when the instruction fails (a failed
Solana instruction rolls back every account write). -/
def stepVote (p : Proposal) (c : VoteCall) : Proposal :=
  match castVote p c.now c.voter c.choiceIndex c.lamports c.hasTokenAccount with
  | .ok q => q
  | .error _ => p

/-- `create_proposal` (lib.rs lines 65–122).  The `Unauthorized` account
constraint of the `CreateProposal` context (line 404) is evaluated by the
runtime before the handler body, hence before every payload check; the
payload checks then run in source order.  On success the new proposal record
and the group with the appended `ProposalInfo` back-reference are both
written. -/
def createProposal (group : Group) (authority : Bytes) (now : Int)
    (proposalKey : Bytes) (proposal_id title description : Bytes)
    (choices : List Bytes) (voting_start voting_end : Int)
    (token_mint : Option Bytes) (bump : Nat) : Except DaoError (Proposal × Group) :=
  if ¬ (group.authority = authority) then .error .Unauthorized
  else if ¬ (proposal_id.length ≤ 50) then .error .ProposalIdTooLong
  else if ¬ (title.length ≤ 200) then .error .TitleTooLong
  else if ¬ (description.length ≤ 1000) then .error .DescriptionTooLong
  else if ¬ (2 ≤ choices.length ∧ choices.length ≤ 10) then .error .InvalidChoiceCount
  else if ¬ (voting_start < voting_end) then .error .InvalidVotingPeriod
  else if ¬ (now < voting_start) then .error .VotingStartInPast
  else
    .ok ({ proposal_id := proposal_id
           group_id := group.group_id
           title := title
           description := description
           choices := choices
           choice_votes := List.replicate choices.length 0
           voting_start := voting_start
           voting_end := voting_end
           token_mint := token_mint
           creator := authority
           voters := []
           created_at := now
           bump := bump },
         { group with proposals := group.proposals ++ [⟨proposal_id, proposalKey, now⟩] })

/-- The record-level invariants of §3 for a proposal: parallel counter list,
in-range recorded choices, one entry per identity, and conservation of
weight between the counters and the voter list. -/
def ProposalInv (p : Proposal) : Prop :=
  p.choice_votes.length = p.choices.length ∧
  (∀ v ∈ p.voters, v.choice < p.choices.length) ∧
  (p.voters.map (fun v => v.voter)).Nodup ∧
  p.choice_votes.sum = (p.voters.map (fun v => v.vote_weight)).sum

/-! ### Proposal address derivation -/

/-- Rust slice `&b[..n]`: defined only when `n` is within bounds, an
out-of-range slice aborts the caller (modelled as `none`). -/
def rustSliceTo (b : Bytes) (n : Nat) : Option Bytes :=
  if n ≤ b.length then some (b.take n) else none

/-- The literal seed `b"proposal"`. -/
def proposalSeedTag : Bytes := [112, 114, 111, 112, 111, 115, 97, 108]

/-- Modelled from the spec: `AddressDeriver.derive`, the deterministic
one-way mapping from seed parts to an `(address, nonce)` pair.  The SHA-256
search over nonce values lives in the external Solana SDK
(`Pubkey::find_program_address`), not in this repository, so only the
properties the spec states — it is a pure function of the seed parts — are
modelled, by an executable stand-in hash. -/
def findProgramAddress (seeds : List Bytes) : Nat × Nat :=
  (seeds.foldl (fun acc part =>
      (part.foldl (fun x y => (x * 65599 + y + 1) % 2 ^ 256) (acc + part.length + 1))) 0,
   255)

/-- The seed parts for a proposal PDA, exactly as written in the
`CreateProposal` context and in the bot (`b"proposal"`, the first 8 bytes of
the group key, the first 8 bytes of the proposal id) — `none` when either
8-byte slice is out of range. -/
def proposalSeeds (groupKey proposalId : Bytes) : Option (List Bytes) :=
  match rustSliceTo groupKey 8, rustSliceTo proposalId 8 with
  | some g8, some p8 => some [proposalSeedTag, g8, p8]
  | _, _ => none

/-- The derived proposal address, or `none` when the seed slicing aborts. -/
def proposalPda (groupKey proposalId : Bytes) : Option (Nat × Nat) :=
  (proposalSeeds groupKey proposalId).map findProgramAddress

/-! ### Concrete example data used by the witness theorems -/

/-- A 32-byte example authority key. -/
def authEx : Bytes := List.replicate 32 7

/-- A 32-byte example account key. -/
def keyEx : Bytes := List.replicate 32 9

/-- A 32-byte example voter key. -/
def voterEx : Bytes := List.replicate 32 3

/-- A second 32-byte example voter key. -/
def voterEx2 : Bytes := List.replicate 32 4

/-- A small example group owned by `authEx`. -/
def groupEx : Group :=
  ⟨[103, 49], [110], [100], authEx, [], [], 0, 255⟩

/-- A small valid example proposal (non-zero bump, no weighting asset). -/
def proposalEx : Proposal :=
  ⟨[112, 49, 97, 98, 99, 100, 101, 102], [103, 49], [116], [100],
   [[65], [66]], [0, 0], 10, 20, none, authEx, [], 5, 254⟩

/-- The same proposal with bump 0, so its encoding ends in a zero byte. -/
def proposalExZeroBump : Proposal := { proposalEx with bump := 0 }

/-- A small valid example registry. -/
def registryEx : DaoRegistry := ⟨authEx, [⟨[103, 49], authEx, keyEx⟩], 254⟩

/-- The example group with bump 0, so its encoding ends in a zero byte. -/
def groupExZeroBump : Group := { groupEx with bump := 0 }

/-- The example registry with bump 0, so its encoding ends in a zero byte. -/
def registryExZeroBump : DaoRegistry := { registryEx with bump := 0 }

/-- A small valid example user account. -/
def userEx : UserAccount := ⟨42, authEx, 7, 254⟩

/-- An example 8-byte account discriminator. -/
def discEx : Bytes := [212, 11, 42, 7, 99, 1, 5, 250]

/-- A group whose id is at the 50-byte ceiling, used for the slot-capacity
failing input. -/
def groupAtCeiling : Group :=
  ⟨List.replicate 50 97, [], [], authEx, [], [], 0, 255⟩

/-- The proposal record `create_proposal` writes for the slot-capacity
failing input: every string at its §3/§4.4 ceiling, ten one-byte choices,
SOL-weighted.  All creation preconditions hold, yet the encoding is larger
than `proposalSpace`. -/
def proposalAtCeiling : Proposal :=
  ⟨List.replicate 50 112, List.replicate 50 97, List.replicate 200 116,
   List.replicate 1000 100, List.replicate 10 [65], List.replicate 10 0,
   10, 20, some nativeMint, authEx, [], 0, 255⟩

/-- The record `create_proposal` writes for the small example inputs. -/
def proposalCreatedEx : Proposal :=
  ⟨[112, 49, 97, 98, 99, 100, 101, 102], [103, 49], [116], [100],
   [[65], [66]], List.replicate 2 0, 10, 20, none, authEx, [], 0, 254⟩

/-- The example group after the example proposal is appended. -/
def groupExAfterCreate : Group :=
  { groupEx with proposals :=
      groupEx.proposals ++ [⟨[112, 49, 97, 98, 99, 100, 101, 102], keyEx, 0⟩] }

/-- The example proposal after one unweighted vote by `voterEx`. -/
def proposalExAfterVote : Proposal :=
  { proposalEx with choice_votes := [1, 0], voters := [⟨voterEx, 0, 1, 12⟩] }

/-! ### Codec groundwork: completeness of every parser on canonical input -/

/-- `natToBytes` always produces exactly `k` bytes. -/
theorem natToBytes_length (k : Nat) : ∀ n, (natToBytes k n).length = k := by
  induction k with
  | zero => intro n; rfl
  | succ k ih => intro n; simp [natToBytes, ih]

/-- `bytesToNat` on a cons cell. -/
theorem bytesToNat_cons (b : Nat) (l : Bytes) :
    bytesToNat (b :: l) = b + 256 * bytesToNat l := rfl

/-- Decoding a `k`-byte little-endian encoding recovers the value modulo
`256 ^ k`. -/
theorem bytesToNat_natToBytes (k : Nat) : ∀ n, bytesToNat (natToBytes k n) = n % 256 ^ k := by
  induction k with
  | zero =>
    intro n
    simp [natToBytes, bytesToNat, Nat.mod_one]
  | succ k ih =>
    intro n
    rw [natToBytes, bytesToNat_cons, ih (n / 256), pow_succ', Nat.mod_mul]

/-- Reading back exactly the bytes of a buffer of the right length. -/
theorem dBytes_pc {l : Bytes} {n : Nat} (h : l.length = n) : PC l l (dBytes n) := by
  intro rest
  subst h
  simp [dBytes, List.take_left, List.drop_left]

/-- Completeness composes over sequential composition. -/
theorem pbind_pc {α β : Type} {p : Parser α} {f : α → Parser β} {b1 b2 : Bytes}
    {a : α} {c : β} (h1 : PC b1 a p) (h2 : PC b2 c (f a)) :
    PC (b1 ++ b2) c (pbind p f) := by
  intro rest
  rw [List.append_assoc]
  unfold pbind
  rw [h1]
  exact h2 rest

/-- Completeness composes over mapping. -/
theorem pmap_pc {α β : Type} {f : α → β} {p : Parser α} {b : Bytes} {a : α}
    (h : PC b a p) : PC b (f a) (pmap f p) := by
  intro rest
  unfold pmap
  rw [h]

/-- A value below `256 ^ k` decodes back from its `k`-byte encoding. -/
theorem dUInt_pc {k n : Nat} (h : n < 256 ^ k) : PC (encUInt k n) n (dUInt k) := by
  have hp := pmap_pc (f := bytesToNat) (dBytes_pc (natToBytes_length k n))
  rw [bytesToNat_natToBytes k n, Nat.mod_eq_of_lt h] at hp
  exact hp

/-- An in-range i64 decodes back from its two's-complement encoding. -/
theorem dI64_pc {v : Int} (h : validI64 v) : PC (encI64 v) v dI64 := by
  obtain ⟨h1, h2⟩ := h
  have h256 : (256 : Nat) ^ 8 = 2 ^ 64 := by norm_num
  have hmod0 : (0 : Int) ≤ v % 2 ^ 64 := Int.emod_nonneg v (by norm_num)
  have hmod1 : v % 2 ^ 64 < 2 ^ 64 := Int.emod_lt_of_pos v (by norm_num)
  have hlt : (v % 2 ^ 64).toNat < 256 ^ 8 := by
    rw [h256]; omega
  have hp := pmap_pc
    (f := fun n : Nat => if n < 2 ^ 63 then (n : Int) else (n : Int) - 2 ^ 64)
    (dUInt_pc hlt)
  have hval : ((fun n : Nat => if n < 2 ^ 63 then (n : Int) else (n : Int) - 2 ^ 64)
      ((v % 2 ^ 64).toNat)) = v := by
    simp only []
    split_ifs with hcase <;> omega
  rw [hval] at hp
  exact hp

/-- A string below the u32 ceiling decodes back from its encoding. -/
theorem dString_pc {s : Bytes} (h : s.length < 2 ^ 32) : PC (encString s) s dString := by
  have h4 : s.length < 256 ^ 4 := by
    have : (256 : Nat) ^ 4 = 2 ^ 32 := by norm_num
    omega
  exact pbind_pc (dUInt_pc h4) (dBytes_pc rfl)

/-- Element-wise completeness lifts to a fixed-count list parse. -/
theorem dList_pc {α : Type} {d : Parser α} {enc : α → Bytes} :
    ∀ {xs : List α}, (∀ x ∈ xs, PC (enc x) x d) →
    PC (xs.flatMap enc) xs (dList d xs.length) := by
  intro xs
  induction xs with
  | nil =>
    intro _ rest
    simp [dList]
  | cons x xs ih =>
    intro h
    have hx := h x (by simp)
    have hxs := ih (fun y hy => h y (by simp [hy]))
    simpa [List.flatMap_cons, dList] using
      pbind_pc hx (pmap_pc (f := fun ys => x :: ys) hxs)

/-- Element-wise completeness lifts to a Borsh `Vec` parse. -/
theorem dVec_pc {α : Type} {d : Parser α} {enc : α → Bytes} {xs : List α}
    (hlen : xs.length < 2 ^ 32) (h : ∀ x ∈ xs, PC (enc x) x d) :
    PC (encVec enc xs) xs (dVec d) := by
  have h4 : xs.length < 256 ^ 4 := by
    have : (256 : Nat) ^ 4 = 2 ^ 32 := by norm_num
    omega
  exact pbind_pc (dUInt_pc h4) (dList_pc h)

/-- The `None` tag decodes back. -/
theorem dOption_pc_none {α : Type} {d : Parser α} {enc : α → Bytes} :
    PC (encOption enc none) (none : Option α) (dOption d) := by
  intro rest
  simp [encOption, dOption]

/-- The `Some` tag decodes back when the payload does. -/
theorem dOption_pc_some {α : Type} {d : Parser α} {enc : α → Bytes} {x : α}
    (h : PC (enc x) x d) : PC (encOption enc (some x)) (some x) (dOption d) := by
  intro rest
  simp only [encOption, List.cons_append, dOption]
  rw [h rest]

/-- A complete parse of the whole buffer succeeds under borsh
`try_from_slice`. -/
theorem tryFromSlice_of_pc {α : Type} {p : Parser α} {b : Bytes} {x : α}
    (h : PC b x p) : tryFromSlice p b = some x := by
  have hb := h []
  rw [List.append_nil] at hb
  simp [tryFromSlice, hb]

/-- A valid `GroupInfo` decodes back from its encoding. -/
theorem dGroupInfo_pc {g : GroupInfo} (h : validGroupInfo g) :
    PC (encGroupInfo g) g dGroupInfo := by
  obtain ⟨⟨hl, _⟩, ⟨ha, _⟩, ⟨hp, _⟩⟩ := h
  exact pbind_pc (dString_pc (by omega))
    (pbind_pc (dBytes_pc ha) (pmap_pc (dBytes_pc hp)))

/-- A valid `ProposalInfo` decodes back from its encoding. -/
theorem dProposalInfo_pc {p : ProposalInfo} (h : validProposalInfo p) :
    PC (encProposalInfo p) p dProposalInfo := by
  obtain ⟨⟨hl, _⟩, ⟨hp, _⟩, hca⟩ := h
  exact pbind_pc (dString_pc (by omega))
    (pbind_pc (dBytes_pc hp) (pmap_pc (dI64_pc hca)))

/-- A valid `GroupMember` decodes back from its encoding. -/
theorem dGroupMember_pc {m : GroupMember} (h : validGroupMember m) :
    PC (encGroupMember m) m dGroupMember := by
  obtain ⟨⟨hp, _⟩, hj⟩ := h
  exact pbind_pc (dBytes_pc hp) (pmap_pc (dI64_pc hj))

/-- A valid `VoterInfo` decodes back from its encoding. -/
theorem dVoterInfo_pc {v : VoterInfo} (h : validVoterInfo v) :
    PC (encVoterInfo v) v dVoterInfo := by
  obtain ⟨⟨hv, _⟩, hch, hw, ht⟩ := h
  have h1 : (256 : Nat) ^ 1 = 256 := by norm_num
  have h8 : (256 : Nat) ^ 8 = 2 ^ 64 := by norm_num
  exact pbind_pc (dBytes_pc hv)
    (pbind_pc (dUInt_pc (by omega))
      (pbind_pc (dUInt_pc (by omega)) (pmap_pc (dI64_pc ht))))

/-- A valid `DaoRegistry` decodes back from its encoding. -/
theorem dDaoRegistry_pc {r : DaoRegistry} (h : validDaoRegistry r) :
    PC (encDaoRegistry r) r dDaoRegistry := by
  obtain ⟨⟨ha, _⟩, hlen, hmem, hb⟩ := h
  have h1 : (256 : Nat) ^ 1 = 256 := by norm_num
  exact pbind_pc (dBytes_pc ha)
    (pbind_pc (dVec_pc hlen (fun g hg => dGroupInfo_pc (hmem g hg)))
      (pmap_pc (dUInt_pc (by omega))))

/-- A valid `Group` decodes back from its encoding. -/
theorem dGroup_pc {g : Group} (h : validGroup g) : PC (encGroup g) g dGroup := by
  obtain ⟨⟨hgid, _⟩, ⟨hn, _⟩, ⟨hd, _⟩, ⟨ha, _⟩, hplen, hpmem, hmlen, hmmem, hca, hb⟩ := h
  have h1 : (256 : Nat) ^ 1 = 256 := by norm_num
  exact pbind_pc (dString_pc (by omega))
    (pbind_pc (dString_pc (by omega))
      (pbind_pc (dString_pc (by omega))
        (pbind_pc (dBytes_pc ha)
          (pbind_pc (dVec_pc hplen (fun p hp => dProposalInfo_pc (hpmem p hp)))
            (pbind_pc (dVec_pc hmlen (fun m hm => dGroupMember_pc (hmmem m hm)))
              (pbind_pc (dI64_pc hca) (pmap_pc (dUInt_pc (by omega)))))))))

/-- A valid `Proposal` decodes back from its encoding. -/
theorem dProposal_pc {p : Proposal} (h : validProposal p) :
    PC (encProposal p) p dProposal := by
  obtain ⟨⟨hpid, _⟩, ⟨hgid, _⟩, ⟨ht, _⟩, ⟨hd, _⟩, hc2, hc10, hcmem, hcv, hcvlen,
    hvs, hve, htm, ⟨hcr, _⟩, hvlen, hvmem, hca, hb⟩ := h
  have h1 : (256 : Nat) ^ 1 = 256 := by norm_num
  have h8 : (256 : Nat) ^ 8 = 2 ^ 64 := by norm_num
  have htmpc : PC (encOption id p.token_mint) p.token_mint (dOption dPubkey) := by
    cases hm : p.token_mint with
    | none => exact dOption_pc_none
    | some m =>
      have := htm m (Option.mem_def.mpr hm)
      exact dOption_pc_some (dBytes_pc this.1)
  exact pbind_pc (dString_pc (by omega))
    (pbind_pc (dString_pc (by omega))
      (pbind_pc (dString_pc (by omega))
        (pbind_pc (dString_pc (by omega))
          (pbind_pc (dVec_pc (by omega) (fun c hc => dString_pc (hcmem c hc).2.1))
            (pbind_pc (dVec_pc hcvlen (fun n hn => dUInt_pc (by have := hcv n hn; omega)))
              (pbind_pc (dI64_pc hvs)
                (pbind_pc (dI64_pc hve)
                  (pbind_pc htmpc
                    (pbind_pc (dBytes_pc hcr)
                      (pbind_pc (dVec_pc hvlen (fun v hv => dVoterInfo_pc (hvmem v hv)))
                        (pbind_pc (dI64_pc hca)
                          (pmap_pc (dUInt_pc (by omega))))))))))))))

/-- A valid `UserAccount` decodes back from its encoding. -/
theorem dUserAccount_pc {u : UserAccount} (h : validUserAccount u) :
    PC (encUserAccount u) u dUserAccount := by
  obtain ⟨htid, ⟨hw, _⟩, hca, hb⟩ := h
  have h1 : (256 : Nat) ^ 1 = 256 := by norm_num
  exact pbind_pc (dI64_pc htid)
    (pbind_pc (dBytes_pc hw)
      (pbind_pc (dI64_pc hca) (pmap_pc (dUInt_pc (by omega)))))

/-! ### Monotonicity: a successful parse ignores appended extra input -/

/-- `dBytes` is monotone. -/
theorem dBytes_mono (n : Nat) : Mono (dBytes n) := by
  intro b x rest ext h
  by_cases hn : n ≤ b.length
  · simp only [dBytes, if_pos hn] at h
    obtain ⟨hx, hr⟩ := Prod.mk.injEq .. ▸ Option.some.injEq .. ▸ h
    have hn2 : n ≤ (b ++ ext).length := by
      rw [List.length_append]; omega
    simp only [dBytes, if_pos hn2, List.take_append_of_le_length hn,
      List.drop_append_of_le_length hn]
    rw [← hx, ← hr]
  · simp [dBytes, if_neg hn] at h

/-- Monotonicity composes over sequential composition. -/
theorem pbind_mono {α β : Type} {p : Parser α} {f : α → Parser β}
    (hp : Mono p) (hf : ∀ a, Mono (f a)) : Mono (pbind p f) := by
  intro b x rest ext h
  unfold pbind at h ⊢
  cases hb : p b with
  | none => rw [hb] at h; exact absurd h (by simp)
  | some ar =>
    obtain ⟨a, r⟩ := ar
    rw [hb] at h
    rw [hp b a r ext hb]
    exact hf a r x rest ext h

/-- Monotonicity composes over mapping. -/
theorem pmap_mono {α β : Type} {f : α → β} {p : Parser α} (hp : Mono p) :
    Mono (pmap f p) := by
  intro b x rest ext h
  unfold pmap at h ⊢
  cases hb : p b with
  | none => rw [hb] at h; exact absurd h (by simp)
  | some ar =>
    obtain ⟨a, r⟩ := ar
    rw [hb] at h
    rw [hp b a r ext hb]
    simp only [Option.some.injEq, Prod.mk.injEq] at h ⊢
    exact ⟨h.1, by rw [h.2]⟩

/-- `dUInt` is monotone. -/
theorem dUInt_mono (k : Nat) : Mono (dUInt k) := pmap_mono (dBytes_mono k)

/-- `dI64` is monotone. -/
theorem dI64_mono : Mono dI64 := pmap_mono (dUInt_mono 8)

/-- `dString` is monotone. -/
theorem dString_mono : Mono dString := pbind_mono (dUInt_mono 4) (fun n => dBytes_mono n)

/-- `dList` is monotone. -/
theorem dList_mono {α : Type} {d : Parser α} (hd : Mono d) : ∀ n, Mono (dList d n) := by
  intro n
  induction n with
  | zero =>
    intro b x rest ext h
    simp only [dList] at h ⊢
    simp only [Option.some.injEq, Prod.mk.injEq] at h ⊢
    exact ⟨h.1, by rw [h.2]⟩
  | succ n ih =>
    exact pbind_mono hd (fun a => pmap_mono ih)

/-- `dVec` is monotone. -/
theorem dVec_mono {α : Type} {d : Parser α} (hd : Mono d) : Mono (dVec d) :=
  pbind_mono (dUInt_mono 4) (fun n => dList_mono hd n)

/-- `dOption` is monotone. -/
theorem dOption_mono {α : Type} {d : Parser α} (hd : Mono d) : Mono (dOption d) := by
  intro b x rest ext h
  rcases b with _ | ⟨(_ | (_ | n)), tl⟩
  · exact absurd h (by simp [dOption])
  · simp only [dOption] at h
    simp only [Option.some.injEq, Prod.mk.injEq] at h
    simp only [List.cons_append, dOption, Option.some.injEq, Prod.mk.injEq]
    exact ⟨h.1, by rw [h.2]⟩
  · simp only [dOption] at h ⊢
    cases ht : d tl with
    | none => rw [ht] at h; exact absurd h (by simp)
    | some yr =>
      obtain ⟨y, r⟩ := yr
      rw [ht] at h
      simp only [Option.some.injEq, Prod.mk.injEq] at h
      simp only [List.cons_append]
      rw [hd tl y r ext ht]
      simp only [Option.some.injEq, Prod.mk.injEq]
      exact ⟨h.1, by rw [h.2]⟩
  · exact absurd h (by simp [dOption])

/-- `dVoterInfo` is monotone. -/
theorem dVoterInfo_mono : Mono dVoterInfo :=
  pbind_mono (dBytes_mono 32) (fun _ =>
    pbind_mono (dUInt_mono 1) (fun _ =>
      pbind_mono (dUInt_mono 8) (fun _ => pmap_mono dI64_mono)))

/-- `dProposal` is monotone. -/
theorem dProposal_mono : Mono dProposal :=
  pbind_mono dString_mono (fun _ =>
    pbind_mono dString_mono (fun _ =>
      pbind_mono dString_mono (fun _ =>
        pbind_mono dString_mono (fun _ =>
          pbind_mono (dVec_mono dString_mono) (fun _ =>
            pbind_mono (dVec_mono (dUInt_mono 8)) (fun _ =>
              pbind_mono dI64_mono (fun _ =>
                pbind_mono dI64_mono (fun _ =>
                  pbind_mono (dOption_mono (dBytes_mono 32)) (fun _ =>
                    pbind_mono (dBytes_mono 32) (fun _ =>
                      pbind_mono (dVec_mono dVoterInfo_mono) (fun _ =>
                        pbind_mono dI64_mono (fun _ =>
                          pmap_mono (dUInt_mono 1)))))))))))))

/-! ### Behaviour of the trailing-zero strip -/

/-- Leading zeros are consumed by the zero `dropWhile`. -/
theorem dropWhile_zero_replicate_append (l : Bytes) :
    ∀ k, List.dropWhile (· == 0) (List.replicate k 0 ++ l) = List.dropWhile (· == 0) l := by
  intro k
  induction k with
  | zero => rfl
  | succ k ih =>
    rw [List.replicate_succ, List.cons_append, List.dropWhile_cons]
    rw [if_pos (by simp)]
    exact ih

/-- Stripping ignores appended zero padding (for a buffer that has some
non-zero byte, as every well-formed encoding does). -/
theorem strip_append_padding {b : Bytes} (k : Nat) (h : ∃ y ∈ b, y ≠ 0) :
    stripTrailingZeros (b ++ List.replicate k 0) = stripTrailingZeros b := by
  have hne : b.reverse.dropWhile (· == 0) ≠ [] := by
    rw [Ne, List.dropWhile_eq_nil_iff]
    push_neg
    obtain ⟨y, hy, hy0⟩ := h
    exact ⟨y, List.mem_reverse.mpr hy, by simpa using hy0⟩
  have hrw : (b ++ List.replicate k 0).reverse.dropWhile (· == 0)
      = b.reverse.dropWhile (· == 0) := by
    rw [List.reverse_append, List.reverse_replicate, dropWhile_zero_replicate_append]
  unfold stripTrailingZeros
  rw [hrw, if_neg hne, if_neg hne]

/-- A buffer ending in a non-zero byte is left untouched by the strip. -/
theorem strip_eq_self_of_getLast_ne_zero {b : Bytes} {v : Nat}
    (h : b.getLast? = some v) (hv : v ≠ 0) : stripTrailingZeros b = b := by
  rcases hr : b.reverse with _ | ⟨a, t⟩
  · rw [← List.head?_reverse, hr] at h
    simp at h
  · have hav : a = v := by
      rw [← List.head?_reverse, hr] at h
      simpa using h
    have hdw : b.reverse.dropWhile (· == 0) = a :: t := by
      rw [hr, List.dropWhile_cons, if_neg (by simp [hav, hv])]
    unfold stripTrailingZeros
    rw [hdw, if_neg (by simp), ← hr, List.reverse_reverse]

/-- A buffer with some non-zero byte splits as its strip followed by zero
padding; when it ends in a zero byte the padding is non-empty. -/
theorem strip_decomp {b : Bytes} (h : ∃ y ∈ b, y ≠ 0) :
    ∃ t, b = stripTrailingZeros b ++ List.replicate t 0 ∧
      (b.getLast? = some 0 → 1 ≤ t) := by
  have hne : b.reverse.dropWhile (· == 0) ≠ [] := by
    rw [Ne, List.dropWhile_eq_nil_iff]
    push_neg
    obtain ⟨y, hy, hy0⟩ := h
    exact ⟨y, List.mem_reverse.mpr hy, by simpa using hy0⟩
  have hsplit : List.takeWhile (· == 0) b.reverse ++ List.dropWhile (· == 0) b.reverse
      = b.reverse := List.takeWhile_append_dropWhile (· == 0) b.reverse
  have hrep : List.takeWhile (· == 0) b.reverse
      = List.replicate (List.takeWhile (· == 0) b.reverse).length 0 := by
    rw [List.eq_replicate_iff]
    refine ⟨rfl, ?_⟩
    intro y hy
    have := List.mem_takeWhile_imp hy
    simpa using this
  refine ⟨(List.takeWhile (· == 0) b.reverse).length, ?_, ?_⟩
  · conv_lhs => rw [← List.reverse_reverse b, ← hsplit]
    rw [List.reverse_append]
    unfold stripTrailingZeros
    rw [if_neg hne]
    congr 1
    conv_lhs => rw [hrep]
    rw [List.reverse_replicate]
  · intro hlast
    rcases hr : b.reverse with _ | ⟨a, t⟩
    · rw [← List.head?_reverse, hr] at hlast
      simp at hlast
    · have ha : a = 0 := by
        rw [← List.head?_reverse, hr] at hlast
        simpa using hlast
      subst ha
      simp [List.takeWhile_cons]

/-- A valid proposal's encoding contains a non-zero byte: the low byte of
the choices length prefix, which the creation precondition pins to 2–10. -/
theorem encProposal_has_nonzero {p : Proposal} (h : validProposal p) :
    ∃ y ∈ encProposal p, y ≠ 0 := by
  obtain ⟨_, _, _, _, hc2, hc10, _⟩ := h
  have hhead : natToBytes 4 p.choices.length
      = p.choices.length % 256 :: natToBytes 3 (p.choices.length / 256) := rfl
  have hmem : p.choices.length % 256 ∈ encVec encString p.choices := by
    unfold encVec encUInt
    rw [hhead]
    exact List.mem_append_left _ (List.mem_cons_self _ _)
  refine ⟨p.choices.length % 256, ?_, ?_⟩
  · unfold encProposal
    exact List.mem_append_right _ (List.mem_append_right _ (List.mem_append_right _
      (List.mem_append_right _ (List.mem_append_left _ hmem))))
  · have hsmall : p.choices.length % 256 = p.choices.length := Nat.mod_eq_of_lt (by omega)
    omega

/-- Inversion of a whole-buffer parse. -/
theorem tryFromSlice_some_elim {α : Type} {d : Parser α} {b : Bytes} {x : α}
    (h : tryFromSlice d b = some x) : d b = some (x, []) := by
  unfold tryFromSlice at h
  rcases hd : d b with _ | ⟨y, r⟩
  · rw [hd] at h
    simp at h
  · rcases r with _ | ⟨c, cr⟩
    · rw [hd] at h
      simp only [Option.some.injEq] at h
      rw [h]
    · rw [hd] at h
      simp at h

/-- Dropping the 8-byte discriminator of a stored slot. -/
theorem drop_disc {disc rest : Bytes} (hdisc : disc.length = 8) :
    (disc ++ rest).drop 8 = rest := by
  rw [← hdisc, List.drop_left]

/-- When a valid proposal's encoding ends in a non-zero byte, the bot's
decode of the zero-padded slot recovers the record exactly. -/
theorem decodeStored_padded_ok {p : Proposal} {disc : Bytes} (k : Nat)
    (hval : validProposal p) (hdisc : disc.length = 8)
    (hlast : (encProposal p).getLast? ≠ some 0) :
    decodeStored dProposal (disc ++ encProposal p ++ List.replicate k 0) = some p := by
  have hnz := encProposal_has_nonzero hval
  unfold decodeStored
  rw [List.append_assoc, drop_disc hdisc, strip_append_padding k hnz]
  have hne : encProposal p ≠ [] := by
    obtain ⟨y, hy, _⟩ := hnz
    exact List.ne_nil_of_mem hy
  obtain ⟨v, hv⟩ : ∃ v, (encProposal p).getLast? = some v := by
    rcases hgl : (encProposal p).getLast? with _ | v
    · rw [List.getLast?_eq_none_iff] at hgl
      exact absurd hgl hne
    · exact ⟨v, rfl⟩
  have hvne : v ≠ 0 := fun h0 => hlast (h0 ▸ hv)
  rw [strip_eq_self_of_getLast_ne_zero hv hvne]
  exact tryFromSlice_of_pc (dProposal_pc hval)

/-- When a valid proposal's encoding ends in a zero byte, the strip removes
live data and the bot's decode of the padded slot can no longer return the
record: the documented limitation of the heuristic. -/
theorem decodeStored_padded_ne {p : Proposal} {disc : Bytes} (k : Nat)
    (hval : validProposal p) (hdisc : disc.length = 8)
    (hlast : (encProposal p).getLast? = some 0) :
    decodeStored dProposal (disc ++ encProposal p ++ List.replicate k 0) ≠ some p := by
  intro hsome
  have hnz := encProposal_has_nonzero hval
  unfold decodeStored at hsome
  rw [List.append_assoc, drop_disc hdisc, strip_append_padding k hnz] at hsome
  obtain ⟨t, hdec, ht⟩ := strip_decomp hnz
  have ht1 := ht hlast
  have hparse := tryFromSlice_some_elim hsome
  have hmono := dProposal_mono _ _ _ (List.replicate t 0) hparse
  rw [List.nil_append, ← hdec] at hmono
  have hpc := dProposal_pc hval []
  rw [List.append_nil] at hpc
  rw [hpc] at hmono
  simp only [Option.some.injEq, Prod.mk.injEq] at hmono
  have : t = 0 := by
    have := hmono.2
    rcases t with _ | t
    · rfl
    · simp [List.replicate_succ] at this
  omega

/-- The last element reported by `getLast?` is a member. -/
theorem mem_of_getLast?_eq {l : Bytes} {v : Nat} (h : l.getLast? = some v) : v ∈ l := by
  have hv : v ∈ l.getLast? := by
    rw [h]
    rfl
  obtain ⟨hne, heq⟩ := List.mem_getLast?_eq_getLast hv
  rw [heq]
  exact List.getLast_mem hne

/-- An all-zero buffer is kept whole: the backward scan finds no non-zero
byte, so the bot keeps the full buffer length. -/
theorem strip_all_zero {b : Bytes} (h : ∀ y ∈ b, y = 0) :
    stripTrailingZeros b = b := by
  have hdw : b.reverse.dropWhile (· == 0) = [] := by
    rw [List.dropWhile_eq_nil_iff]
    intro y hy
    have := h y (List.mem_reverse.mp hy)
    simp [this]
  unfold stripTrailingZeros
  rw [hdw]
  simp

/-- A one-byte unsigned encoding is the single low byte. -/
theorem encUInt_one_cons (n : Nat) : encUInt 1 n = [n % 256] := rfl

/-- A `Group` encoding is never empty (it ends with the bump byte). -/
theorem encGroup_ne_nil (g : Group) : encGroup g ≠ [] := by
  simp [encGroup, encUInt_one_cons]

/-- A `DaoRegistry` encoding is never empty (it ends with the bump byte). -/
theorem encDaoRegistry_ne_nil (r : DaoRegistry) : encDaoRegistry r ≠ [] := by
  simp [encDaoRegistry, encUInt_one_cons]

/-- `dGroupInfo` is monotone. -/
theorem dGroupInfo_mono : Mono dGroupInfo :=
  pbind_mono dString_mono (fun _ =>
    pbind_mono (dBytes_mono 32) (fun _ => pmap_mono (dBytes_mono 32)))

/-- `dProposalInfo` is monotone. -/
theorem dProposalInfo_mono : Mono dProposalInfo :=
  pbind_mono dString_mono (fun _ =>
    pbind_mono (dBytes_mono 32) (fun _ => pmap_mono dI64_mono))

/-- `dGroupMember` is monotone. -/
theorem dGroupMember_mono : Mono dGroupMember :=
  pbind_mono (dBytes_mono 32) (fun _ => pmap_mono dI64_mono)

/-- `dDaoRegistry` is monotone. -/
theorem dDaoRegistry_mono : Mono dDaoRegistry :=
  pbind_mono (dBytes_mono 32) (fun _ =>
    pbind_mono (dVec_mono dGroupInfo_mono) (fun _ => pmap_mono (dUInt_mono 1)))

/-- `dGroup` is monotone. -/
theorem dGroup_mono : Mono dGroup :=
  pbind_mono dString_mono (fun _ =>
    pbind_mono dString_mono (fun _ =>
      pbind_mono dString_mono (fun _ =>
        pbind_mono (dBytes_mono 32) (fun _ =>
          pbind_mono (dVec_mono dProposalInfo_mono) (fun _ =>
            pbind_mono (dVec_mono dGroupMember_mono) (fun _ =>
              pbind_mono dI64_mono (fun _ => pmap_mono (dUInt_mono 1))))))))

/-- Generic positive half of the padding heuristic: any record whose
encoding parses back completely and ends in a non-zero byte is recovered
from its zero-padded slot. -/
theorem decodeStored_ok_of_pc {α : Type} {d : Parser α} {x : α} {b disc : Bytes}
    (hpc : PC b x d) (hdisc : disc.length = 8) (hne : b ≠ [])
    (hlast : b.getLast? ≠ some 0) (k : Nat) :
    decodeStored d (disc ++ b ++ List.replicate k 0) = some x := by
  obtain ⟨v, hv⟩ : ∃ v, b.getLast? = some v := by
    rcases hgl : b.getLast? with _ | v
    · rw [List.getLast?_eq_none_iff] at hgl
      exact absurd hgl hne
    · exact ⟨v, rfl⟩
  have hvne : v ≠ 0 := fun h0 => hlast (h0 ▸ hv)
  have hnz : ∃ y ∈ b, y ≠ 0 := ⟨v, mem_of_getLast?_eq hv, hvne⟩
  unfold decodeStored
  rw [List.append_assoc, drop_disc hdisc, strip_append_padding k hnz,
    strip_eq_self_of_getLast_ne_zero hv hvne]
  exact tryFromSlice_of_pc hpc

/-- Generic negative half of the padding heuristic: a record whose encoding
ends in a zero byte is never recovered from its padded slot, provided the
slot has at least one byte of padding or the encoding has some non-zero
byte (an all-zero encoding with no padding at all is kept whole by the scan
and decodes back — the one corner the fixed-capacity slots never hit). -/
theorem decodeStored_ne_of_pc {α : Type} {d : Parser α} {x : α} {b disc : Bytes}
    {k : Nat} (hpc : PC b x d) (hmono : Mono d) (hdisc : disc.length = 8)
    (hlast : b.getLast? = some 0) (hside : 1 ≤ k ∨ ∃ y ∈ b, y ≠ 0) :
    decodeStored d (disc ++ b ++ List.replicate k 0) ≠ some x := by
  intro hsome
  unfold decodeStored at hsome
  rw [List.append_assoc, drop_disc hdisc] at hsome
  by_cases hnz : ∃ y ∈ b, y ≠ 0
  · rw [strip_append_padding k hnz] at hsome
    obtain ⟨t, hdec, ht⟩ := strip_decomp hnz
    have ht1 := ht hlast
    have hparse := tryFromSlice_some_elim hsome
    have hmono2 := hmono _ _ _ (List.replicate t 0) hparse
    rw [List.nil_append, ← hdec] at hmono2
    have hpc2 := hpc []
    rw [List.append_nil] at hpc2
    rw [hpc2] at hmono2
    simp only [Option.some.injEq, Prod.mk.injEq] at hmono2
    have ht0 : t = 0 := by
      have h2 := hmono2.2
      rcases t with _ | t
      · rfl
      · simp [List.replicate_succ] at h2
    omega
  · have hk : 1 ≤ k := by
      rcases hside with hk | hcontra
      · exact hk
      · exact absurd hcontra hnz
    have hall : ∀ y ∈ b ++ List.replicate k 0, y = 0 := by
      intro y hy
      rcases List.mem_append.mp hy with hy | hy
      · push_neg at hnz
        exact hnz y hy
      · exact List.eq_of_mem_replicate hy
    rw [strip_all_zero hall] at hsome
    have hparse := tryFromSlice_some_elim hsome
    have hpc2 := hpc (List.replicate k 0)
    rw [hpc2] at hparse
    simp only [Option.some.injEq, Prod.mk.injEq] at hparse
    have h2 := hparse.2
    rcases k with _ | k
    · omega
    · simp [List.replicate_succ] at h2

/-! ### State-machine groundwork -/

/-- Setting index `i` to its current value plus `w` raises the list sum by
exactly `w`. -/
theorem sum_set_getD_add (l : List Nat) (i w : Nat) (h : i < l.length) :
    (l.set i (l.getD i 0 + w)).sum = l.sum + w := by
  induction l generalizing i with
  | nil => simp at h
  | cons a t ih =>
    cases i with
    | zero =>
      simp only [List.getD_cons_zero, List.set_cons_zero, List.sum_cons]
      omega
    | succ i =>
      have hi : i < t.length := by simpa using h
      simp only [List.getD_cons_succ, List.set_cons_succ, List.sum_cons, ih i hi]
      omega

/-- Appending a voter whose key is fresh preserves distinctness of the
recorded voter keys. -/
theorem nodup_voters_append {voters : List VoterInfo} {v : VoterInfo}
    (h : (voters.map (fun x => x.voter)).Nodup)
    (hnot : ∀ u ∈ voters, u.voter ≠ v.voter) :
    ((voters ++ [v]).map (fun x => x.voter)).Nodup := by
  rw [List.map_append, List.nodup_append]
  refine ⟨h, by simp, ?_⟩
  intro a ha
  simp only [List.map_cons, List.map_nil, List.mem_singleton]
  obtain ⟨u, hu, hua⟩ := List.mem_map.mp ha
  intro hav
  exact hnot u hu (by rw [hua, hav])

/-- Inversion of a successful `vote_on_proposal`: every check passed and the
new record is the old one with the counter bumped and the voter appended,
the weight being exactly `resolveWeight`. -/
theorem castVote_ok_elim {p : Proposal} {now : Int} {vk : Bytes} {idx lam : Nat}
    {tok : Bool} {q : Proposal}
    (h : castVote p now vk idx lam tok = .ok q) :
    (p.voting_start ≤ now ∧ now ≤ p.voting_end) ∧ idx < p.choices.length ∧
    (∀ u ∈ p.voters, u.voter ≠ vk) ∧
    0 < resolveWeight p.token_mint lam ∧
    q = { p with
      choice_votes :=
        p.choice_votes.set idx (p.choice_votes.getD idx 0 + resolveWeight p.token_mint lam),
      voters := p.voters ++ [⟨vk, idx, resolveWeight p.token_mint lam, now⟩] } := by
  unfold castVote at h
  by_cases h1 : p.voting_start ≤ now ∧ now ≤ p.voting_end
  swap
  · rw [if_pos h1] at h
    simp at h
  rw [if_neg (not_not_intro h1)] at h
  by_cases h2 : idx < p.choices.length
  swap
  · rw [if_pos h2] at h
    simp at h
  rw [if_neg (not_not_intro h2)] at h
  by_cases h3 : p.voters.any (fun v => v.voter == vk) = true
  · rw [if_pos h3] at h
    simp at h
  rw [if_neg h3] at h
  have hfresh : ∀ u ∈ p.voters, u.voter ≠ vk := by
    intro u hu
    have hfalse : p.voters.any (fun v => v.voter == vk) = false := Bool.eq_false_iff.mpr h3
    have := List.any_eq_false.mp hfalse u hu
    simpa using this
  rcases hm : p.token_mint with _ | m
  · have hw : resolveWeight (none : Option Bytes) lam = 1 := by simp [resolveWeight]
    rw [hw]
    rw [hm] at h
    simp at h
    refine ⟨h1, h2, hfresh, by norm_num, ?_⟩
    rw [← h]
    simp [List.getD_eq_getElem?_getD]
  · rw [hm] at h
    by_cases hmn : m = nativeMint
    · have hw : resolveWeight (some m) lam = lam := by
        simp [resolveWeight, hmn]
      rw [hw]
      by_cases hl : 0 < lam
      · simp only [hmn, if_true, if_pos rfl] at h
        simp [hl, Nat.pos_iff_ne_zero] at h
        refine ⟨h1, h2, hfresh, hl, ?_⟩
        rw [← h]
        simp [List.getD_eq_getElem?_getD, hmn]
      · simp [hmn, hl, Nat.eq_zero_of_not_pos] at h
    · have hw : resolveWeight (some m) lam = 1 := by
        simp [resolveWeight, hmn]
      rw [hw]
      cases tok with
      | false => simp [hmn] at h
      | true =>
        simp [hmn] at h
        refine ⟨h1, h2, hfresh, by norm_num, ?_⟩
        rw [← h]
        simp [List.getD_eq_getElem?_getD]

/-- A proposal freshly written by `create_proposal` satisfies the record
invariants: zero counters parallel to the choices, no voters. -/
theorem createProposal_inv {g : Group} {ak : Bytes} {now : Int} {pk : Bytes}
    {pid title desc : Bytes} {choices : List Bytes} {vs ve : Int}
    {tm : Option Bytes} {bump : Nat} {p0 : Proposal} {g2 : Group}
    (h : createProposal g ak now pk pid title desc choices vs ve tm bump = .ok (p0, g2)) :
    ProposalInv p0 := by
  unfold createProposal at h
  split_ifs at h
  simp only [Except.ok.injEq, Prod.mk.injEq] at h
  obtain ⟨hp, _⟩ := h
  rw [← hp]
  refine ⟨by simp, by simp, by simp, ?_⟩
  simp [List.sum_replicate]

/-- One store-level vote step preserves the record invariants. -/
theorem stepVote_inv {p : Proposal} (hInv : ProposalInv p) (c : VoteCall) :
    ProposalInv (stepVote p c) := by
  unfold stepVote
  rcases hc : castVote p c.now c.voter c.choiceIndex c.lamports c.hasTokenAccount with e | q
  · exact hInv
  · obtain ⟨hw1, hw2, hfresh, hpos, hq⟩ := castVote_ok_elim hc
    subst hq
    obtain ⟨hlen, hchoice, hnodup, hsum⟩ := hInv
    refine ⟨by simp [hlen], ?_, ?_, ?_⟩
    · intro v hv
      rcases List.mem_append.mp hv with hv | hv
      · exact hchoice v hv
      · rw [List.mem_singleton.mp hv]
        exact hw2
    · exact nodup_voters_append hnodup (fun u hu => hfresh u hu)
    · have hidx : c.choiceIndex < p.choice_votes.length := by rw [hlen]; exact hw2
      simp only [List.map_append, List.sum_append, List.map_cons, List.map_nil,
        List.sum_cons, List.sum_nil]
      rw [sum_set_getD_add p.choice_votes c.choiceIndex
        (resolveWeight p.token_mint c.lamports) hidx, hsum]
      omega

/-- The record invariants hold after any sequence of store-level vote
steps. -/
theorem foldVotes_inv {p : Proposal} (h : ProposalInv p) :
    ∀ calls : List VoteCall, ProposalInv (calls.foldl stepVote p) := by
  intro calls
  induction calls generalizing p with
  | nil => exact h
  | cons c cs ih => exact ih (stepVote_inv h c)


/-- A false `any` over the voter list means every recorded voter key
differs from the caller's. -/
theorem fresh_of_not_any {voters : List VoterInfo} {vk : Bytes}
    (h : ¬ voters.any (fun v => v.voter == vk) = true) : ∀ u ∈ voters, u.voter ≠ vk := by
  intro u hu
  have hfalse : voters.any (fun v => v.voter == vk) = false := Bool.eq_false_iff.mpr h
  have := List.any_eq_false.mp hfalse u hu
  simpa using this

/-- Freshness rules out a matching entry. -/
theorem not_exists_voter_of_fresh {voters : List VoterInfo} {vk : Bytes}
    (h : ∀ u ∈ voters, u.voter ≠ vk) : ¬ ∃ v ∈ voters, v.voter = vk := by
  rintro ⟨v, hv, he⟩
  exact h v hv he

/-- C1: for every `vote_on_proposal` call, `VotingNotActive` is returned iff
the clock is outside the closed window `[voting_start, voting_end]` (both
boundary instants are accepted as Open); otherwise `InvalidChoice` iff the
choice index is at least `choices.len()`; otherwise `AlreadyVoted` iff the
voter already appears in `voters`; otherwise `NoVotingPower` iff the
resolved weight is zero; and on every failure the stored record is
completely unchanged — no counter bumped, no voter appended. -/
theorem c1_cast_vote_error_conditions (p : Proposal) (now : Int) (vk : Bytes)
    (idx lam : Nat) (tok : Bool) :
    (castVote p now vk idx lam tok = .error .VotingNotActive ↔
      ¬ (p.voting_start ≤ now ∧ now ≤ p.voting_end)) ∧
    (castVote p now vk idx lam tok = .error .InvalidChoice ↔
      ((p.voting_start ≤ now ∧ now ≤ p.voting_end) ∧ p.choices.length ≤ idx)) ∧
    (castVote p now vk idx lam tok = .error .AlreadyVoted ↔
      ((p.voting_start ≤ now ∧ now ≤ p.voting_end) ∧ idx < p.choices.length ∧
        ∃ v ∈ p.voters, v.voter = vk)) ∧
    (castVote p now vk idx lam tok = .error .NoVotingPower ↔
      ((p.voting_start ≤ now ∧ now ≤ p.voting_end) ∧ idx < p.choices.length ∧
        (∀ v ∈ p.voters, v.voter ≠ vk) ∧ resolveWeight p.token_mint lam = 0)) ∧
    (∀ e, castVote p now vk idx lam tok = .error e →
      stepVote p ⟨now, vk, idx, lam, tok⟩ = p) := by
  have hstep : ∀ e, castVote p now vk idx lam tok = .error e →
      stepVote p ⟨now, vk, idx, lam, tok⟩ = p := by
    intro e he
    unfold stepVote
    simp [he]
  have hmain :
      (castVote p now vk idx lam tok = .error .VotingNotActive ↔
        ¬ (p.voting_start ≤ now ∧ now ≤ p.voting_end)) ∧
      (castVote p now vk idx lam tok = .error .InvalidChoice ↔
        ((p.voting_start ≤ now ∧ now ≤ p.voting_end) ∧ p.choices.length ≤ idx)) ∧
      (castVote p now vk idx lam tok = .error .AlreadyVoted ↔
        ((p.voting_start ≤ now ∧ now ≤ p.voting_end) ∧ idx < p.choices.length ∧
          ∃ v ∈ p.voters, v.voter = vk)) ∧
      (castVote p now vk idx lam tok = .error .NoVotingPower ↔
        ((p.voting_start ≤ now ∧ now ≤ p.voting_end) ∧ idx < p.choices.length ∧
          (∀ v ∈ p.voters, v.voter ≠ vk) ∧ resolveWeight p.token_mint lam = 0)) := by
    unfold castVote
    by_cases h1 : p.voting_start ≤ now ∧ now ≤ p.voting_end
    swap
    · rw [if_pos h1]
      simp [h1]
    rw [if_neg (not_not_intro h1)]
    by_cases h2 : idx < p.choices.length
    swap
    · rw [if_pos h2]
      have h2b : p.choices.length ≤ idx := Nat.not_lt.mp h2
      simp [h1, h2, h2b]
    rw [if_neg (not_not_intro h2)]
    by_cases h3 : p.voters.any (fun v => v.voter == vk) = true
    · rw [if_pos h3]
      have hex : ∃ v ∈ p.voters, v.voter = vk := by
        simpa [List.any_eq_true] using h3
      have hforall : ¬ ∀ v ∈ p.voters, v.voter ≠ vk := by
        obtain ⟨v, hv, he⟩ := hex
        exact fun hall => hall v hv he
      simp [h1, h2, hex, hforall]
    rw [if_neg h3]
    have hfresh := fresh_of_not_any h3
    have hnex := not_exists_voter_of_fresh hfresh
    rcases hm : p.token_mint with _ | m
    · simp [h1, h2, hfresh, hnex, resolveWeight]
    by_cases hmn : m = nativeMint
    · by_cases hl : lam = 0
      · subst hl
        simp [h1, h2, hfresh, hnex, hmn, resolveWeight]
        exact hfresh
      · simp [h1, h2, hfresh, hnex, hmn, hl, resolveWeight, Nat.pos_iff_ne_zero]
    · cases tok
      · simp [h1, h2, hfresh, hnex, hmn, resolveWeight]
      · simp [h1, h2, hfresh, hnex, hmn, resolveWeight]
  exact ⟨hmain.1, hmain.2.1, hmain.2.2.1, hmain.2.2.2, hstep⟩

/-- C2: for every proposal written by `create_proposal` and every sequence
of subsequent `vote_on_proposal` calls, each reachable state keeps
`choice_votes` parallel to `choices`, every recorded choice index in range,
every voter identity at most once, and the counter total equal to the total
recorded weight. -/
theorem c2_proposal_invariants (g : Group) (ak : Bytes) (now : Int) (pk : Bytes)
    (pid title desc : Bytes) (choices : List Bytes) (vs ve : Int)
    (tm : Option Bytes) (bump : Nat) (p0 : Proposal) (g2 : Group)
    (calls : List VoteCall)
    (h : createProposal g ak now pk pid title desc choices vs ve tm bump = .ok (p0, g2)) :
    ProposalInv (calls.foldl stepVote p0) :=
  foldVotes_inv (createProposal_inv h) calls

/-- C5: a successful `vote_on_proposal` records exactly `resolveWeight`:
1 with no weighting asset, the lamport balance read at vote time for the
native marker, and the placeholder 1 for any other asset. -/
theorem c5_vote_weight_semantics (p : Proposal) (now : Int) (vk : Bytes)
    (idx lam : Nat) (tok : Bool) (q : Proposal)
    (h : castVote p now vk idx lam tok = .ok q) :
    q.voters = p.voters ++ [⟨vk, idx, resolveWeight p.token_mint lam, now⟩] ∧
    (p.token_mint = none → resolveWeight p.token_mint lam = 1) ∧
    (p.token_mint = some nativeMint → resolveWeight p.token_mint lam = lam) ∧
    (∀ m, p.token_mint = some m → m ≠ nativeMint → resolveWeight p.token_mint lam = 1) := by
  obtain ⟨_, _, _, _, hq⟩ := castVote_ok_elim h
  refine ⟨by rw [hq], ?_, ?_, ?_⟩
  · intro hm
    rw [hm]
    simp [resolveWeight]
  · intro hm
    rw [hm]
    simp [resolveWeight]
  · intro m hm hne
    rw [hm]
    simp [resolveWeight, hne]

/-- C9: the `Unauthorized` account constraint is settled before any payload
check — a caller that is not the group's owning identity gets
`Unauthorized` for every payload, even one that also breaks the length,
count or window rules. -/
theorem c9_authorization_before_validation (g : Group) (ak : Bytes) (now : Int)
    (pk pid title desc : Bytes) (choices : List Bytes) (vs ve : Int)
    (tm : Option Bytes) (bump : Nat) (h : g.authority ≠ ak) :
    createProposal g ak now pk pid title desc choices vs ve tm bump
      = .error .Unauthorized := by
  unfold createProposal
  rw [if_pos h]

/-- C6 (amended): `create_proposal` rejects an over-long proposal id with
`ProposalIdTooLong` (the code's own error for this check — not
`GroupIdTooLong`), an over-long title with `TitleTooLong`, an over-long
description with `DescriptionTooLong`, a choice count outside 2–10 with
`InvalidChoiceCount`, `voting_start ≥ voting_end` with
`InvalidVotingPeriod`, `voting_start ≤ now` with `VotingStartInPast`, and a
caller that is not the group's owning identity with `Unauthorized`; on
success `choice_votes` is the all-zero vector of length `choices.len()` and
a `ProposalInfo` summary is appended to the owning group. -/
theorem c6_create_proposal_checks (g : Group) (ak : Bytes) (now : Int)
    (pk pid title desc : Bytes) (choices : List Bytes) (vs ve : Int)
    (tm : Option Bytes) (bump : Nat) :
    (createProposal g ak now pk pid title desc choices vs ve tm bump
        = .error .Unauthorized ↔ g.authority ≠ ak) ∧
    (createProposal g ak now pk pid title desc choices vs ve tm bump
        = .error .ProposalIdTooLong ↔ (g.authority = ak ∧ 50 < pid.length)) ∧
    (createProposal g ak now pk pid title desc choices vs ve tm bump
        = .error .TitleTooLong ↔
      (g.authority = ak ∧ pid.length ≤ 50 ∧ 200 < title.length)) ∧
    (createProposal g ak now pk pid title desc choices vs ve tm bump
        = .error .DescriptionTooLong ↔
      (g.authority = ak ∧ pid.length ≤ 50 ∧ title.length ≤ 200 ∧
        1000 < desc.length)) ∧
    (createProposal g ak now pk pid title desc choices vs ve tm bump
        = .error .InvalidChoiceCount ↔
      (g.authority = ak ∧ pid.length ≤ 50 ∧ title.length ≤ 200 ∧
        desc.length ≤ 1000 ∧ (choices.length < 2 ∨ 10 < choices.length))) ∧
    (createProposal g ak now pk pid title desc choices vs ve tm bump
        = .error .InvalidVotingPeriod ↔
      (g.authority = ak ∧ pid.length ≤ 50 ∧ title.length ≤ 200 ∧
        desc.length ≤ 1000 ∧ 2 ≤ choices.length ∧ choices.length ≤ 10 ∧
        ve ≤ vs)) ∧
    (createProposal g ak now pk pid title desc choices vs ve tm bump
        = .error .VotingStartInPast ↔
      (g.authority = ak ∧ pid.length ≤ 50 ∧ title.length ≤ 200 ∧
        desc.length ≤ 1000 ∧ 2 ≤ choices.length ∧ choices.length ≤ 10 ∧
        vs < ve ∧ vs ≤ now)) ∧
    ((g.authority = ak ∧ pid.length ≤ 50 ∧ title.length ≤ 200 ∧
        desc.length ≤ 1000 ∧ 2 ≤ choices.length ∧ choices.length ≤ 10 ∧
        vs < ve ∧ now < vs) →
      ∃ p g2, createProposal g ak now pk pid title desc choices vs ve tm bump
          = .ok (p, g2) ∧
        p.choice_votes = List.replicate choices.length 0 ∧
        g2 = { g with proposals := g.proposals ++ [⟨pid, pk, now⟩] }) := by
  unfold createProposal
  by_cases hauth : g.authority = ak
  swap
  · rw [if_pos hauth]
    simp [hauth]
  rw [if_neg (not_not_intro hauth)]
  by_cases hid : pid.length ≤ 50
  swap
  · rw [if_pos hid]
    have hid2 : 50 < pid.length := Nat.lt_of_not_le hid
    simp [hauth, hid, hid2]
  rw [if_neg (not_not_intro hid)]
  have hid2 : ¬ 50 < pid.length := by omega
  by_cases hti : title.length ≤ 200
  swap
  · rw [if_pos hti]
    have hti2 : 200 < title.length := Nat.lt_of_not_le hti
    simp [hauth, hid, hid2, hti, hti2]
  rw [if_neg (not_not_intro hti)]
  have hti2 : ¬ 200 < title.length := by omega
  by_cases hde : desc.length ≤ 1000
  swap
  · rw [if_pos hde]
    have hde2 : 1000 < desc.length := Nat.lt_of_not_le hde
    simp [hauth, hid, hid2, hti, hti2, hde, hde2]
  rw [if_neg (not_not_intro hde)]
  have hde2 : ¬ 1000 < desc.length := by omega
  by_cases hcc : 2 ≤ choices.length ∧ choices.length ≤ 10
  swap
  · rw [if_pos hcc]
    have hcc2 : choices.length < 2 ∨ 10 < choices.length := by omega
    have hcc3 : ¬ (2 ≤ choices.length ∧ choices.length ≤ 10) := hcc
    simp [hauth, hid, hid2, hti, hti2, hde, hde2, hcc2]
    omega
  rw [if_neg (not_not_intro hcc)]
  have hcc2 : ¬ (choices.length < 2 ∨ 10 < choices.length) := by omega
  by_cases hvp : vs < ve
  swap
  · rw [if_pos (by omega : ¬ vs < ve)]
    have hvp2 : ve ≤ vs := by omega
    simp [hauth, hid, hid2, hti, hti2, hde, hde2, hcc.1, hcc.2, hcc2, hvp, hvp2]
  rw [if_neg (not_not_intro hvp)]
  have hvp2 : ¬ ve ≤ vs := by omega
  by_cases hvs : now < vs
  swap
  · rw [if_pos (by omega : ¬ now < vs)]
    have hvs2 : vs ≤ now := by omega
    simp [hauth, hid, hid2, hti, hti2, hde, hde2, hcc.1, hcc.2, hcc2, hvp, hvp2, hvs2]
  rw [if_neg (not_not_intro hvs)]
  have hvs2 : ¬ vs ≤ now := by omega
  refine ⟨by simp [hauth], by simp [hauth, hid2], by simp [hauth, hti2],
    by simp [hauth, hde2], by simp [hauth, hcc2], by simp [hauth, hvp2],
    by simp [hauth, hvs2], ?_⟩
  intro _
  exact ⟨_, _, rfl, rfl, rfl⟩

set_option maxRecDepth 100000 in
/-- C3 (failing input): a proposal whose inputs meet every creation
precondition — all strings at their §3/§4.4 ceilings, ten one-byte choices
— is accepted by `create_proposal`, yet its encoded record (8-byte
discriminator plus body) is larger than the fixed `proposalSpace` slot the
`CreateProposal` context allocates: the slot budget omits the vec element
data (choice labels, 8-byte counters, voters), so the length ceilings do
not guarantee fit. -/
theorem c3_slot_capacity_exceeded :
    createProposal groupAtCeiling authEx 0 keyEx (List.replicate 50 112)
      (List.replicate 200 116) (List.replicate 1000 100) (List.replicate 10 [65])
      10 20 (some nativeMint) 255
      = .ok (proposalAtCeiling,
          { groupAtCeiling with proposals := [⟨List.replicate 50 112, keyEx, 0⟩] }) ∧
    proposalSpace < 8 + (encProposal proposalAtCeiling).length := by
  constructor
  · decide
  · decide

/-- C4: the bot's decode drops the 8-byte discriminator, strips trailing
zero bytes back to the last non-zero byte and decodes exactly that prefix —
for every stored record kind it reads back (`Proposal` in
`get_proposal_results`, `Group` and `DaoRegistry` in `get_all_groups`).
Hence a valid record whose encoding ends in a non-zero byte survives the
zero-padded slot round-trip, while one whose encoding ends in a zero byte
(for these records: bump 0 as the final encoded field) is not recovered —
the documented limitation is reproduced, not fixed.  A valid proposal
always contains the non-zero choice-count byte, so its non-recovery needs
no side condition; a valid group or registry can encode entirely to zero
bytes (empty strings and lists, all-zero key, zero timestamps and bump), a
buffer the backward scan keeps whole, so for those kinds the non-recovery
holds for every slot with at least one byte of zero padding — which every
fixed-capacity slot holding such a tiny record has. -/
theorem c4_decode_strips_trailing_zeros (p : Proposal) (g : Group)
    (r : DaoRegistry) (disc : Bytes) (k : Nat) (hp : validProposal p)
    (hg : validGroup g) (hr : validDaoRegistry r) (hdisc : disc.length = 8) :
    ((encProposal p).getLast? ≠ some 0 →
      decodeStored dProposal (disc ++ encProposal p ++ List.replicate k 0)
        = some p) ∧
    ((encProposal p).getLast? = some 0 →
      decodeStored dProposal (disc ++ encProposal p ++ List.replicate k 0)
        ≠ some p) ∧
    ((encGroup g).getLast? ≠ some 0 →
      decodeStored dGroup (disc ++ encGroup g ++ List.replicate k 0)
        = some g) ∧
    (1 ≤ k → (encGroup g).getLast? = some 0 →
      decodeStored dGroup (disc ++ encGroup g ++ List.replicate k 0)
        ≠ some g) ∧
    ((encDaoRegistry r).getLast? ≠ some 0 →
      decodeStored dDaoRegistry (disc ++ encDaoRegistry r ++ List.replicate k 0)
        = some r) ∧
    (1 ≤ k → (encDaoRegistry r).getLast? = some 0 →
      decodeStored dDaoRegistry (disc ++ encDaoRegistry r ++ List.replicate k 0)
        ≠ some r) :=
  ⟨fun h => decodeStored_padded_ok k hp hdisc h,
   fun h => decodeStored_padded_ne k hp hdisc h,
   fun h => decodeStored_ok_of_pc (dGroup_pc hg) hdisc (encGroup_ne_nil g) h k,
   fun hk h => decodeStored_ne_of_pc (dGroup_pc hg) dGroup_mono hdisc h (Or.inl hk),
   fun h => decodeStored_ok_of_pc (dDaoRegistry_pc hr) hdisc
     (encDaoRegistry_ne_nil r) h k,
   fun hk h => decodeStored_ne_of_pc (dDaoRegistry_pc hr) dDaoRegistry_mono hdisc h
     (Or.inl hk)⟩

/-- C7: for every record kind, decoding the encoding of a valid record
returns the record unchanged. -/
theorem c7_roundtrip (r : DaoRegistry) (g : Group) (p : Proposal)
    (u : UserAccount) (hr : validDaoRegistry r) (hg : validGroup g)
    (hp : validProposal p) (hu : validUserAccount u) :
    tryFromSlice dDaoRegistry (encDaoRegistry r) = some r ∧
    tryFromSlice dGroup (encGroup g) = some g ∧
    tryFromSlice dProposal (encProposal p) = some p ∧
    tryFromSlice dUserAccount (encUserAccount u) = some u :=
  ⟨tryFromSlice_of_pc (dDaoRegistry_pc hr), tryFromSlice_of_pc (dGroup_pc hg),
   tryFromSlice_of_pc (dProposal_pc hp), tryFromSlice_of_pc (dUserAccount_pc hu)⟩

/-- C8: the proposal address depends only on the namespace, the first 8
bytes of the group key and the first 8 bytes of the proposal id; two ids of
length at least 8 agreeing on their first 8 bytes derive the identical
(address, nonce) pair. -/
theorem c8_pda_depends_on_prefixes (gk id1 id2 : Bytes)
    (h1 : 8 ≤ id1.length) (h2 : 8 ≤ id2.length)
    (hpre : id1.take 8 = id2.take 8) :
    proposalPda gk id1 = proposalPda gk id2 := by
  unfold proposalPda proposalSeeds rustSliceTo
  rw [if_pos h1, if_pos h2, hpre]

/-- C10: every proposal-address computation slices
`proposal_id.as_bytes()[..8]` unconditionally, so a proposal id shorter
than 8 bytes makes the slice (and with it the whole operation) abort
instead of returning a clean error: all proposal operations implicitly
require ids of at least 8 bytes. -/
theorem c10_short_proposal_id_aborts (gk id : Bytes) (h : id.length < 8) :
    proposalPda gk id = none := by
  unfold proposalPda proposalSeeds rustSliceTo
  rw [if_neg (by omega : ¬ 8 ≤ id.length)]
  by_cases hgk : 8 ≤ gk.length
  · rw [if_pos hgk]
    rfl
  · rw [if_neg hgk]
    rfl

/-- A replicated byte string within its ceiling is valid. -/
theorem validStr_replicate {cap n v : Nat} (h1 : n ≤ cap) (h2 : v < 256) :
    validStr cap (List.replicate n v) := by
  refine ⟨by simp [h1], ?_⟩
  intro b hb
  rw [List.eq_of_mem_replicate hb]
  exact h2

/-- A replicated 32-byte key is a valid public key. -/
theorem validPubkey_replicate {v : Nat} (h2 : v < 256) :
    validPubkey (List.replicate 32 v) := by
  refine ⟨by simp, ?_⟩
  intro b hb
  rw [List.eq_of_mem_replicate hb]
  exact h2

/-- The native mint marker is a well-formed 32-byte key. -/
theorem validPubkey_nativeMint : validPubkey nativeMint := by
  constructor
  · decide
  · decide

/-- The ceiling-sized example proposal is a valid record. -/
theorem validProposal_proposalAtCeiling : validProposal proposalAtCeiling := by
  unfold proposalAtCeiling
  refine ⟨validStr_replicate (by norm_num) (by norm_num),
    validStr_replicate (by norm_num) (by norm_num),
    validStr_replicate (by norm_num) (by norm_num),
    validStr_replicate (by norm_num) (by norm_num),
    by simp, by simp, ?_, ?_, by simp, by norm_num [validI64],
    by norm_num [validI64], ?_, validPubkey_replicate (by norm_num), by simp,
    by simp, by norm_num [validI64], by norm_num⟩
  · intro c hc
    rw [List.eq_of_mem_replicate hc]
    refine ⟨by simp, by simp, ?_⟩
    intro b hb
    simp at hb
    omega
  · intro n hn
    rw [List.eq_of_mem_replicate hn]
    norm_num
  · intro m hm
    have : nativeMint = m := by simpa using hm
    rw [← this]
    exact validPubkey_nativeMint

set_option maxRecDepth 100000 in
/-- C6 counterexample: an authorized call with a 51-character proposal id is
rejected with `ProposalIdTooLong`, not `GroupIdTooLong`. -/
theorem c6_counterexample_long_id_error_code :
    createProposal groupEx authEx 0 keyEx (List.replicate 51 112) [] []
      [[65], [66]] 10 20 none 254 = .error .ProposalIdTooLong ∧
    createProposal groupEx authEx 0 keyEx (List.replicate 51 112) [] []
      [[65], [66]] 10 20 none 254 ≠ .error .GroupIdTooLong := by
  constructor
  · decide
  · decide

/-- C1 witness: a vote after `voting_end` is rejected with
`VotingNotActive`. -/
theorem c1_witness_vote_after_end :
    castVote proposalEx 30 voterEx 0 5 false = .error .VotingNotActive :=
  (c1_cast_vote_error_conditions proposalEx 30 voterEx 0 5 false).1.mpr (by decide)

/-- C2 witness: the invariants hold for a concrete created proposal after a
concrete vote sequence. -/
theorem c2_witness_concrete_run :
    ProposalInv (List.foldl stepVote proposalCreatedEx
      [⟨12, voterEx, 0, 5, false⟩, ⟨13, voterEx2, 1, 5, false⟩]) :=
  c2_proposal_invariants groupEx authEx 0 keyEx
    [112, 49, 97, 98, 99, 100, 101, 102] [116] [100] [[65], [66]] 10 20 none 254
    proposalCreatedEx groupExAfterCreate
    [⟨12, voterEx, 0, 5, false⟩, ⟨13, voterEx2, 1, 5, false⟩] (by decide)

set_option maxRecDepth 100000 in
/-- C4 witness: for each of the three stored record kinds, the padded
round-trip succeeds for a concrete valid record with non-zero final byte
and fails for the same record with bump 0. -/
theorem c4_witness_concrete_padding :
    decodeStored dProposal (discEx ++ encProposal proposalEx ++ List.replicate 40 0)
      = some proposalEx ∧
    decodeStored dProposal
        (discEx ++ encProposal proposalExZeroBump ++ List.replicate 40 0)
      ≠ some proposalExZeroBump ∧
    decodeStored dGroup (discEx ++ encGroup groupEx ++ List.replicate 40 0)
      = some groupEx ∧
    decodeStored dGroup (discEx ++ encGroup groupExZeroBump ++ List.replicate 40 0)
      ≠ some groupExZeroBump ∧
    decodeStored dDaoRegistry
        (discEx ++ encDaoRegistry registryEx ++ List.replicate 40 0)
      = some registryEx ∧
    decodeStored dDaoRegistry
        (discEx ++ encDaoRegistry registryExZeroBump ++ List.replicate 40 0)
      ≠ some registryExZeroBump := by
  refine ⟨?_, ?_, ?_, ?_, ?_, ?_⟩
  · exact (c4_decode_strips_trailing_zeros proposalEx groupEx registryEx discEx 40
      (by decide) (by decide) (by decide) (by decide)).1 (by decide)
  · exact (c4_decode_strips_trailing_zeros proposalExZeroBump groupEx registryEx
      discEx 40 (by decide) (by decide) (by decide) (by decide)).2.1 (by decide)
  · exact (c4_decode_strips_trailing_zeros proposalEx groupEx registryEx discEx 40
      (by decide) (by decide) (by decide) (by decide)).2.2.1 (by decide)
  · exact (c4_decode_strips_trailing_zeros proposalEx groupExZeroBump registryEx
      discEx 40 (by decide) (by decide) (by decide) (by decide)).2.2.2.1
      (by decide) (by decide)
  · exact (c4_decode_strips_trailing_zeros proposalEx groupEx registryEx discEx 40
      (by decide) (by decide) (by decide) (by decide)).2.2.2.2.1 (by decide)
  · exact (c4_decode_strips_trailing_zeros proposalEx groupEx registryExZeroBump
      discEx 40 (by decide) (by decide) (by decide) (by decide)).2.2.2.2.2
      (by decide) (by decide)

/-- C5 witness: a concrete unweighted vote succeeds and records weight 1. -/
theorem c5_witness_concrete_weight :
    castVote proposalEx 12 voterEx 0 5 false = .ok proposalExAfterVote ∧
    proposalExAfterVote.voters
      = proposalEx.voters
        ++ [⟨voterEx, 0, resolveWeight proposalEx.token_mint 5, 12⟩] := by
  have h : castVote proposalEx 12 voterEx 0 5 false = .ok proposalExAfterVote := by
    decide
  exact ⟨h, (c5_vote_weight_semantics proposalEx 12 voterEx 0 5 false
    proposalExAfterVote h).1⟩

set_option maxRecDepth 100000 in
/-- C6 witness: an authorized call with a 201-character title is rejected
with `TitleTooLong`. -/
theorem c6_witness_title_too_long :
    createProposal groupEx authEx 0 keyEx [112, 49, 97, 98, 99, 100, 101, 102]
      (List.replicate 201 116) [] [[65], [66]] 10 20 none 254
      = .error .TitleTooLong :=
  (c6_create_proposal_checks groupEx authEx 0 keyEx
    [112, 49, 97, 98, 99, 100, 101, 102] (List.replicate 201 116) []
    [[65], [66]] 10 20 none 254).2.2.1.mpr ⟨by decide, by decide, by decide⟩

set_option maxRecDepth 100000 in
/-- C7 witness: the round-trip holds for concrete records of all four
kinds, the proposal at its 10-choice and max-string boundary. -/
theorem c7_witness_concrete_roundtrip :
    tryFromSlice dDaoRegistry (encDaoRegistry registryEx) = some registryEx ∧
    tryFromSlice dGroup (encGroup groupEx) = some groupEx ∧
    tryFromSlice dProposal (encProposal proposalAtCeiling) = some proposalAtCeiling ∧
    tryFromSlice dUserAccount (encUserAccount userEx) = some userEx :=
  c7_roundtrip registryEx groupEx proposalAtCeiling userEx
    (by decide) (by decide) validProposal_proposalAtCeiling (by decide)

/-- C8 witness: two concrete 9-plus-byte ids sharing their first 8 bytes
alias to the same proposal address. -/
theorem c8_witness_concrete_alias :
    proposalPda keyEx [1, 2, 3, 4, 5, 6, 7, 8, 9]
      = proposalPda keyEx [1, 2, 3, 4, 5, 6, 7, 8, 10, 11] :=
  c8_pda_depends_on_prefixes keyEx [1, 2, 3, 4, 5, 6, 7, 8, 9]
    [1, 2, 3, 4, 5, 6, 7, 8, 10, 11] (by decide) (by decide) (by decide)

/-- C9 witness: a non-owner caller gets `Unauthorized` even though the
payload also breaks the id-length and choice-count rules. -/
theorem c9_witness_unauthorized_bad_payload :
    createProposal groupEx voterEx 0 keyEx (List.replicate 51 112) [] [] []
      10 20 none 254 = .error .Unauthorized :=
  c9_authorization_before_validation groupEx voterEx 0 keyEx
    (List.replicate 51 112) [] [] [] 10 20 none 254 (by decide)

/-- C10 witness: a 3-byte proposal id aborts the address computation. -/
theorem c10_witness_short_id :
    proposalPda keyEx [1, 2, 3] = none :=
  c10_short_proposal_id_aborts keyEx [1, 2, 3] (by decide)

end SolanaDao
